import Mathlib

/-!
Verification of the TMSU CLI option-resolution core
(`src/tmsu/cli/command.go`): the `Command` interface, the global option
registry `globalOptions`, and the resolver `LookupOption`.

The Go code is shallowly embedded: slices become `List`, the nilable
`Command` parameter becomes `Option Command`, and the nilable `*Option`
return value becomes `Option CliOption`.
-/

/-- Modelled from the spec: the `Option` struct is declared in a repository
file outside the provided source (`command.go` only uses its fields).
Per the spec's data model it is the immutable triple
`{ShortName: string, LongName: string, Description: string}`, in that
field order, consistent with the positional literals
`Option{"-v", "--verbose", "show verbose messages"}` in `command.go`.
Named `CliOption` here because `Option` is taken by Lean's core type. -/
structure CliOption where
  ShortName : String
  LongName : String
  Description : String
deriving DecidableEq, Repr

/-- `type Options []Option` — modelled from the spec: an ordered sequence
of `Option` values. -/
abbrev Options := List CliOption

/-- Modelled from the spec: `CommandName` is declared outside the provided
source; the spec says only that it is a stable textual identifier. -/
abbrev CommandName := String

/-- The `Command` interface of `command.go`. Go interface values are
embedded as a structure bundling the five methods (a method table);
`Exec` returns `error`, embedded as `Except String Unit`. -/
structure Command where
  Name : CommandName
  Synopsis : String
  Description : String
  Options : List CliOption
  Exec : List CliOption → List String → Except String Unit

/-- The loop condition `option.LongName == name || option.ShortName == name`
used by both scans in `LookupOption`. -/
def optionMatches (o : CliOption) (name : String) : Bool :=
  o.LongName == name || o.ShortName == name

/-- `var globalOptions = Options{...}` from `command.go`, verbatim. -/
def globalOptions : Options :=
  [CliOption.mk "-v" "--verbose" "show verbose messages",
   CliOption.mk "-h" "--help" "show help and exit",
   CliOption.mk "-V" "--version" "show version information and exit"]

/-- `func LookupOption(command Command, name string) *Option` from
`command.go`. The first `for` loop over `globalOptions` returning the
first match is `List.find?`; then, if the command is non-nil, the same
scan over `command.Options()`; otherwise `nil` (here `none`). -/
def LookupOption (command : Option Command) (name : String) : Option CliOption :=
  match globalOptions.find? (fun o => optionMatches o name) with
  | some o => some o
  | none =>
    match command with
    | some c => c.Options.find? (fun o => optionMatches o name)
    | none => none

/-- A concrete command used in witnesses: the spec's calibration example of
a `tag` subcommand declaring `{"-a", "--all", "apply to all files"}`. -/
def tagCommand : Command where
  Name := "tag"
  Synopsis := "apply tags to files"
  Description := "Tags the files with the specified tags."
  Options := [CliOption.mk "-a" "--all" "apply to all files"]
  Exec := fun _ _ => Except.ok ()

/-- A concrete command that redeclares the global `--verbose` name,
used to exercise the shadowing rule. -/
def shadowCommand : Command where
  Name := "shadow"
  Synopsis := "shadowing example"
  Description := "Declares a command-local --verbose."
  Options := [CliOption.mk "-w" "--verbose" "local verbose"]
  Exec := fun _ _ => Except.ok ()

/-- A copy of `tagCommand` with a different name and synopsis but the same
option sequence, used to check that resolution depends only on the
option sequence. -/
def tagCommandClone : Command where
  Name := "tag-clone"
  Synopsis := "metadata differs from tagCommand"
  Description := "Same options as tagCommand, different metadata."
  Options := [CliOption.mk "-a" "--all" "apply to all files"]
  Exec := fun _ _ => Except.ok ()

/-- A concrete command violating the per-scope name-uniqueness invariant:
two options share the names `-x` and `--dup`. -/
def dupCommand : Command where
  Name := "dup"
  Synopsis := "duplicate names example"
  Description := "Two options with identical names."
  Options := [CliOption.mk "-x" "--dup" "first declared",
              CliOption.mk "-x" "--dup" "second declared"]
  Exec := fun _ _ => Except.ok ()

/-- A concrete command one of whose options has an empty `ShortName`. -/
def longOnlyCommand : Command where
  Name := "long-only"
  Synopsis := "option without a short form"
  Description := "Declares an option whose ShortName is empty."
  Options := [CliOption.mk "" "--only-long" "long form only"]
  Exec := fun _ _ => Except.ok ()

/-- The first scan of `LookupOption` returns `some o` exactly when the
global registry has a match; convenience unfolding lemma. -/
lemma LookupOption_global_some {n : String} {o : CliOption}
    (h : globalOptions.find? (fun x => optionMatches x n) = some o)
    (cmd : Option Command) : LookupOption cmd n = some o := by
  simp [LookupOption, h]

/-- When the global scan misses and a command is present, `LookupOption`
is the scan of the command's own options. -/
lemma LookupOption_global_none {n : String}
    (h : globalOptions.find? (fun x => optionMatches x n) = none)
    (c : Command) :
    LookupOption (some c) n = c.Options.find? (fun x => optionMatches x n) := by
  simp [LookupOption, h]

/-- A linear scan whose prefix has no match returns the first match. -/
lemma find?_append_first {p : CliOption → Bool} {pre post : List CliOption}
    {o : CliOption} (hpre : ∀ a ∈ pre, p a = false) (ho : p o = true) :
    (pre ++ o :: post).find? p = some o := by
  rw [List.find?_append]
  have h1 : pre.find? p = none := List.find?_eq_none.mpr (by
    intro x hx
    simp [hpre x hx])
  simp [h1, List.find?_cons_of_pos _ ho]

/-- Claim C1: any name that matches a global option resolves to that global
option for every command argument, including when the command declares a
same-named option; the command-local definition is never returned. -/
theorem lookupOption_global_precedence (cmd : Option Command) (n : String)
    (g : CliOption) (hg : g ∈ globalOptions) (hm : optionMatches g n = true) :
    LookupOption cmd n = some g := by
  simp only [globalOptions, List.mem_cons, List.not_mem_nil, or_false] at hg
  rcases hg with hg | hg | hg <;> subst hg <;>
    simp only [optionMatches, Bool.or_eq_true, beq_iff_eq] at hm <;>
    rcases hm with h | h <;> subst h <;> rfl

/-- Witness for C1: `shadowCommand` declares its own `--verbose`, yet the
resolver returns the global verbose option. -/
theorem lookupOption_global_precedence_witness :
    LookupOption (some shadowCommand) "--verbose" =
      some (CliOption.mk "-v" "--verbose" "show verbose messages") :=
  lookupOption_global_precedence (some shadowCommand) "--verbose"
    (CliOption.mk "-v" "--verbose" "show verbose messages")
    (by decide) (by decide)

/-- Claim C2: a name that matches no global option but matches some option
of the command resolves to the first matching command-local option in
declaration order. -/
theorem lookupOption_command_local (c : Command) (n : String)
    (hglobal : ∀ g ∈ globalOptions, optionMatches g n = false)
    (hlocal : ∃ o ∈ c.Options, optionMatches o n = true) :
    ∃ pre o post, c.Options = pre ++ o :: post ∧ optionMatches o n = true ∧
      (∀ a ∈ pre, optionMatches a n = false) ∧
      LookupOption (some c) n = some o := by
  have hgn : globalOptions.find? (fun x => optionMatches x n) = none :=
    List.find?_eq_none.mpr (by intro x hx; simp [hglobal x hx])
  have hs : (c.Options.find? (fun x => optionMatches x n)).isSome := by
    rw [List.find?_isSome]
    obtain ⟨o, ho, hmo⟩ := hlocal
    exact ⟨o, ho, hmo⟩
  obtain ⟨o, ho⟩ := Option.isSome_iff_exists.mp hs
  obtain ⟨hmo, pre, post, hsplit, hpre⟩ := List.find?_eq_some.mp ho
  refine ⟨pre, o, post, hsplit, hmo, ?_, ?_⟩
  · intro a ha
    simpa using hpre a ha
  · rw [LookupOption_global_none hgn, ho]

/-- Witness for C2: `tagCommand` resolves `--all` to its own option. -/
theorem lookupOption_command_local_witness :
    ∃ pre o post,
      tagCommand.Options = pre ++ o :: post ∧ optionMatches o "--all" = true ∧
      (∀ a ∈ pre, optionMatches a "--all" = false) ∧
      LookupOption (some tagCommand) "--all" = some o :=
  lookupOption_command_local tagCommand "--all" (by decide)
    ⟨CliOption.mk "-a" "--all" "apply to all files", by decide, by decide⟩

/-- Claim C3: a name matching neither a global option nor (when a command
is present) any of the command's options yields the ordinary "not found"
result `none`; the resolver is a total function and raises nothing. -/
theorem lookupOption_not_found (cmd : Option Command) (n : String)
    (hglobal : ∀ g ∈ globalOptions, optionMatches g n = false)
    (hlocal : ∀ c, cmd = some c → ∀ o ∈ c.Options, optionMatches o n = false) :
    LookupOption cmd n = none := by
  have hgn : globalOptions.find? (fun x => optionMatches x n) = none :=
    List.find?_eq_none.mpr (by intro x hx; simp [hglobal x hx])
  cases cmd with
  | none => simp [LookupOption, hgn]
  | some c =>
    rw [LookupOption_global_none hgn]
    exact List.find?_eq_none.mpr (by
      intro x hx
      simp [hlocal c rfl x hx])

/-- Witness for C3: `--bogus` is not found under `tagCommand`. -/
theorem lookupOption_not_found_witness :
    LookupOption (some tagCommand) "--bogus" = none :=
  lookupOption_not_found (some tagCommand) "--bogus" (by decide)
    (by intro c hc o ho; cases hc; revert o ho; decide)

/-- Claim C4: the global registry is exactly the three options verbose,
help and version, in this order, with these short names, long names and
descriptions. -/
theorem globalOptions_registry :
    globalOptions.length = 3 ∧
    globalOptions.get? 0 =
      some (CliOption.mk "-v" "--verbose" "show verbose messages") ∧
    globalOptions.get? 1 =
      some (CliOption.mk "-h" "--help" "show help and exit") ∧
    globalOptions.get? 2 =
      some (CliOption.mk "-V" "--version" "show version information and exit") := by
  decide

/-- Claim C5: with the "no command" sentinel the resolver consults only the
global registry — for every name it equals the global scan, so it never
touches any command's options and never fails — and in particular
`LookupOption none "-h"` is the global help option. -/
theorem lookupOption_no_command :
    (∀ n : String, LookupOption none n =
      globalOptions.find? (fun x => optionMatches x n)) ∧
    LookupOption none "-h" = some (CliOption.mk "-h" "--help" "show help and exit") := by
  constructor
  · intro n
    cases h : globalOptions.find? (fun x => optionMatches x n) <;>
      simp [LookupOption, h]
  · rfl

/-- Claim C6: matching is exact string equality against `ShortName` or
`LongName`: any returned option has `n` literally equal to one of its two
names, and case matters — `-V` resolves to the version option while `-v`
resolves to the verbose option, two distinct results. -/
theorem lookupOption_exact_match :
    (∀ (cmd : Option Command) (n : String) (o : CliOption),
        LookupOption cmd n = some o → o.ShortName = n ∨ o.LongName = n) ∧
    LookupOption none "-V" =
      some (CliOption.mk "-V" "--version" "show version information and exit") ∧
    LookupOption none "-v" =
      some (CliOption.mk "-v" "--verbose" "show verbose messages") ∧
    LookupOption none "-V" ≠ LookupOption none "-v" := by
  refine ⟨?_, by decide, by decide, by decide⟩
  intro cmd n o h
  unfold LookupOption at h
  cases hg : globalOptions.find? (fun x => optionMatches x n) with
  | some g =>
    rw [hg] at h
    cases h
    have := List.find?_some hg
    simp only [optionMatches, Bool.or_eq_true, beq_iff_eq] at this
    exact Or.symm this
  | none =>
    rw [hg] at h
    cases cmd with
    | none => cases h
    | some c =>
      have := List.find?_some h
      simp only [optionMatches, Bool.or_eq_true, beq_iff_eq] at this
      exact Or.symm this

/-- Witness for C6: applying the exactness half at the concrete lookup of
`-h` shows the returned help option carries the name `-h`. -/
theorem lookupOption_exact_match_witness :
    (CliOption.mk "-h" "--help" "show help and exit").ShortName = "-h" ∨
    (CliOption.mk "-h" "--help" "show help and exit").LongName = "-h" :=
  lookupOption_exact_match.1 none "-h"
    (CliOption.mk "-h" "--help" "show help and exit") (by decide)

/-- Claim C7: the result of `LookupOption` is a pure function of
`(globalOptions, c.Options(), name)` — two command values exposing equal
option sequences (their names, synopses, descriptions and `Exec` bodies
may differ arbitrarily) make `LookupOption` agree on every name. -/
theorem lookupOption_pure_function (cmd cmd' : Option Command)
    (h : Option.map Command.Options cmd = Option.map Command.Options cmd')
    (n : String) : LookupOption cmd n = LookupOption cmd' n := by
  cases hg : globalOptions.find? (fun x => optionMatches x n) with
  | some g =>
    rw [LookupOption_global_some hg cmd, LookupOption_global_some hg cmd']
  | none =>
    cases cmd with
    | none =>
      cases cmd' with
      | none => rfl
      | some c' => exact Option.noConfusion h
    | some c =>
      cases cmd' with
      | none => exact Option.noConfusion h
      | some c' =>
        have h' : c.Options = c'.Options := Option.some.inj h
        rw [LookupOption_global_none hg c, LookupOption_global_none hg c', h']

/-- Witness for C7: `tagCommand` and `tagCommandClone` differ in every
metadata field yet resolve `--all` identically. -/
theorem lookupOption_pure_function_witness :
    LookupOption (some tagCommand) "--all" =
      LookupOption (some tagCommandClone) "--all" :=
  lookupOption_pure_function (some tagCommand) (some tagCommandClone)
    (by decide) "--all"

/-- Claim C8: tie-break within one scope — when several options of a single
scope match `n` (the per-scope uniqueness invariant is violated), the scan
of that scope returns the first match in declaration order; in particular,
with no global match, `LookupOption` returns the first matching option of
the command's sequence. -/
theorem lookupOption_first_match_wins :
    (∀ (n : String) (pre post : List CliOption) (o : CliOption),
        optionMatches o n = true → (∀ a ∈ pre, optionMatches a n = false) →
        (pre ++ o :: post).find? (fun x => optionMatches x n) = some o) ∧
    (∀ (c : Command) (n : String) (pre post : List CliOption) (o : CliOption),
        c.Options = pre ++ o :: post → optionMatches o n = true →
        (∀ a ∈ pre, optionMatches a n = false) →
        (∀ g ∈ globalOptions, optionMatches g n = false) →
        LookupOption (some c) n = some o) := by
  constructor
  · intro n pre post o ho hpre
    exact find?_append_first hpre ho
  · intro c n pre post o hopts ho hpre hglobal
    have hgn : globalOptions.find? (fun x => optionMatches x n) = none :=
      List.find?_eq_none.mpr (by intro x hx; simp [hglobal x hx])
    rw [LookupOption_global_none hgn, hopts]
    exact find?_append_first hpre ho

/-- Witness for C8: `dupCommand` declares `-x` twice; the resolver returns
the first-declared duplicate. -/
theorem lookupOption_first_match_wins_witness :
    LookupOption (some dupCommand) "-x" =
      some (CliOption.mk "-x" "--dup" "first declared") :=
  lookupOption_first_match_wins.2 dupCommand "-x" []
    [CliOption.mk "-x" "--dup" "second declared"]
    (CliOption.mk "-x" "--dup" "first declared")
    rfl (by decide) (by decide) (by decide)

/-- Claim C9: soundness of a positive result — whatever `LookupOption`
returns is an element of the global registry or of the command's own
option sequence, and the queried name equals its short or long name; the
resolver never fabricates an option. -/
theorem lookupOption_sound (cmd : Option Command) (n : String) (o : CliOption)
    (h : LookupOption cmd n = some o) :
    (o ∈ globalOptions ∨ ∃ c, cmd = some c ∧ o ∈ c.Options) ∧
    (o.ShortName = n ∨ o.LongName = n) := by
  unfold LookupOption at h
  cases hg : globalOptions.find? (fun x => optionMatches x n) with
  | some g =>
    rw [hg] at h
    cases h
    have hmem := List.mem_of_find?_eq_some hg
    have hmatch := List.find?_some hg
    simp only [optionMatches, Bool.or_eq_true, beq_iff_eq] at hmatch
    exact ⟨Or.inl hmem, Or.symm hmatch⟩
  | none =>
    rw [hg] at h
    cases cmd with
    | none => cases h
    | some c =>
      have hmem := List.mem_of_find?_eq_some h
      have hmatch := List.find?_some h
      simp only [optionMatches, Bool.or_eq_true, beq_iff_eq] at hmatch
      exact ⟨Or.inr ⟨c, rfl, hmem⟩, Or.symm hmatch⟩

/-- Witness for C9: the positive result for `--all` under `tagCommand` is
its own declared option, carrying the queried name. -/
theorem lookupOption_sound_witness :
    ((CliOption.mk "-a" "--all" "apply to all files") ∈ globalOptions ∨
      ∃ c, some tagCommand = some c ∧
        (CliOption.mk "-a" "--all" "apply to all files") ∈ c.Options) ∧
    ((CliOption.mk "-a" "--all" "apply to all files").ShortName = "--all" ∨
      (CliOption.mk "-a" "--all" "apply to all files").LongName = "--all") :=
  lookupOption_sound (some tagCommand) "--all"
    (CliOption.mk "-a" "--all" "apply to all files") (by decide)

/-- Claim C10: the empty string is not special-cased — no global option has
an empty name, and if some option of the command has an empty `ShortName`
or `LongName`, then `LookupOption(c, "")` returns the first option of the
command's sequence with an empty name, not "not found". -/
theorem lookupOption_empty_name (c : Command)
    (h : ∃ o ∈ c.Options, o.ShortName = "" ∨ o.LongName = "") :
    (∀ g ∈ globalOptions, optionMatches g "" = false) ∧
    ∃ pre o post, c.Options = pre ++ o :: post ∧
      (o.ShortName = "" ∨ o.LongName = "") ∧
      (∀ a ∈ pre, optionMatches a "" = false) ∧
      LookupOption (some c) "" = some o := by
  refine ⟨by decide, ?_⟩
  obtain ⟨o0, ho0, hname⟩ := h
  have hm0 : optionMatches o0 "" = true := by
    simp only [optionMatches, Bool.or_eq_true, beq_iff_eq]
    exact Or.symm hname
  obtain ⟨pre, o, post, hsplit, hmo, hpre, hres⟩ :=
    lookupOption_command_local c "" (by decide) ⟨o0, ho0, hm0⟩
  refine ⟨pre, o, post, hsplit, ?_, hpre, hres⟩
  simp only [optionMatches, Bool.or_eq_true, beq_iff_eq] at hmo
  exact Or.symm hmo

/-- Witness for C10: `longOnlyCommand` declares an option with an empty
`ShortName`, and the resolver finds it under the empty-string name. -/
theorem lookupOption_empty_name_witness :
    (∀ g ∈ globalOptions, optionMatches g "" = false) ∧
    ∃ pre o post, longOnlyCommand.Options = pre ++ o :: post ∧
      (o.ShortName = "" ∨ o.LongName = "") ∧
      (∀ a ∈ pre, optionMatches a "" = false) ∧
      LookupOption (some longOnlyCommand) "" = some o :=
  lookupOption_empty_name longOnlyCommand
    ⟨CliOption.mk "" "--only-long" "long form only", by decide, by decide⟩
